import Mathlib

set_option maxHeartbeats 1000000

/-!
A shallow embedding of the computational core of the Deeper Moorings
cable bending-stress app (app.py), together with theorems settling the
claims about it.

Modelling conventions:

* Python floats are idealised as real numbers.  Axial load values, which
  enter through the numeric-text parser, are modelled as rationals
  (every finite binary float is a rational); the engine casts them into
  the reals where it does arithmetic on them.
* The curves dictionary built by compute_curves is modelled as an
  insertion-ordered association list with Python dict assignment
  semantics: assigning to an existing key updates the value in place,
  otherwise the pair is appended at the end.  The dict key, which in
  Python is the format string built from the load value via the general
  float format (6 significant digits) and the unit tag, is modelled by
  the inductive type Label carrying the 6-significant-digit rounded
  value and the unit: that rounded value determines the rendered string
  and vice versa, so key equality is preserved, and distinct loads that
  round alike collide here as they do in the program.
* The single exception compute_curves can raise, the ZeroDivisionError
  of the axial-stress division T_eff / n_cond when n_cond = 0 and the
  load list is nonempty, is modelled by an Option result: none stands
  for the raise.  The other division is protected by max(A_c, 1e-12) in
  the source and cannot raise.
* Python float() is modelled on finite decimal literals with optional
  sign, decimal point and exponent; the special inf/nan spellings and
  digit-group underscores also accepted by Python are outside the model.
-/

/-! ### The load-list text parser (app.py lines 253-259) -/

/-- Whitespace removed by Python str.strip(). -/
def isPySpace (c : Char) : Bool :=
  (c == ' ') || (c == '\t') || (c == '\n') || (c == '\r') || (c == '\x0B') || (c == '\x0C')

/-- Python str.strip(): drop leading and trailing whitespace. -/
def stripWs (l : List Char) : List Char :=
  ((l.dropWhile isPySpace).reverse.dropWhile isPySpace).reverse

/-- Python str.split on a single comma separator: every comma splits, empty
pieces are kept, and the empty string yields one empty piece. -/
def splitComma : List Char → List (List Char)
  | [] => [[]]
  | c :: rest =>
    if c == ',' then [] :: splitComma rest
    else
      match splitComma rest with
      | [] => [[c]]
      | t :: ts => (c :: t) :: ts

/-- Numeric value of a list of decimal digit characters. -/
def digitsToNat (l : List Char) : ℕ :=
  l.foldl (fun n c => 10 * n + (c.toNat - 48)) 0

/-- Parse a nonempty all-digit character list. -/
def parseDigits (l : List Char) : Option ℕ :=
  if !l.isEmpty && l.all Char.isDigit then some (digitsToNat l) else none

/-- Parse the optionally signed digit string after the exponent marker. -/
def parseSignedExp : List Char → Option ℤ
  | '+' :: r => (parseDigits r).map (fun n => (n : ℤ))
  | '-' :: r => (parseDigits r).map (fun n => -(n : ℤ))
  | r => (parseDigits r).map (fun n => (n : ℤ))

/-- Parse the mantissa of a Python float literal: digits with an optional
decimal point, at least one digit present on some side of the point. -/
def parseMantissa (l : List Char) : Option ℚ :=
  let ip := l.takeWhile (fun c => c != '.')
  match l.dropWhile (fun c => c != '.') with
  | [] => (parseDigits ip).map (fun n => (n : ℚ))
  | _ :: fp =>
    if ip.all Char.isDigit && fp.all Char.isDigit && (!ip.isEmpty || !fp.isEmpty) then
      some ((digitsToNat ip : ℚ) + (digitsToNat fp : ℚ) / (10 : ℚ) ^ fp.length)
    else none

/-- Python float() on an already stripped token, restricted to finite
decimal literals: optional sign, mantissa, optional exponent part. -/
def pyFloat (l : List Char) : Option ℚ :=
  let sgn : ℚ :=
    match l with
    | '-' :: _ => -1
    | _ => 1
  let body : List Char :=
    match l with
    | '+' :: r => r
    | '-' :: r => r
    | r => r
  let mant := body.takeWhile (fun c => c != 'e' && c != 'E')
  match parseMantissa mant, body.dropWhile (fun c => c != 'e' && c != 'E') with
  | some m, [] => some (sgn * m)
  | some m, _ :: ec =>
    match parseSignedExp ec with
    | some e => some (sgn * m * (10 : ℚ) ^ e)
    | none => none
  | none, _ => none

/-- The list comprehension over float(): the first failing token aborts the
whole comprehension (the exception), modelled as none. -/
def parseAll : List (List Char) → Option (List ℚ)
  | [] => some []
  | t :: ts =>
    match pyFloat t, parseAll ts with
    | some v, some vs => some (v :: vs)
    | _, _ => none

/-- Stripped, nonempty tokens of the comma-separated input text. -/
def tokensOf (s : List Char) : List (List Char) :=
  ((splitComma s).map stripWs).filter (fun t => !t.isEmpty)

/-- The caller-supplied default load list (app.py line 253). -/
def default_loads : List ℚ := [20, 40, 60, 80, 100, 200]

/-- The try/except around the comprehension: on any parse failure the whole
list falls back to the supplied default (app.py lines 256-259). -/
def parseLoadsText (s : List Char) (dflt : List ℚ) : List ℚ :=
  match parseAll (tokensOf s) with
  | some vs => vs
  | none => dflt

/-! ### The curve engine (app.py lines 93-119) -/

/-- Unit tag for the axial loads. -/
inductive LoadUnit
  | N
  | lbf
  deriving DecidableEq

/-- Dictionary key of a curve: the pure-bending case, or an axial case
keyed by the value the Python general float format renders for the load
(6 significant digits, see gFormat below) together with the unit — the
two data the format string of the key is built from. -/
inductive Label
  | pureBending
  | axialCase (load : ℚ) (unit : LoadUnit)
  deriving DecidableEq

/-- Inputs of compute_curves, in source order. -/
structure CurveInputs where
  R_m : List ℝ
  E_GPa : ℝ
  y_mm : ℝ
  A_c_mm2 : ℝ
  axial_loads : List ℚ
  loads_unit : LoadUnit
  f_axial_share : ℝ
  helix_enable : Bool
  helix_angle_deg : ℝ
  bend_amp_factor : ℝ
  axial_reduction_enable : Bool
  axial_reduction_factor : ℝ
  safety_factor : ℝ
  n_cond : ℤ

/-- Pound-force to newton conversion (app.py line 93). -/
noncomputable def lbf_to_N (x : ℝ) : ℝ := x * 4.44822

/-- np.deg2rad. -/
noncomputable def deg2rad (x : ℝ) : ℝ := x * (Real.pi / 180)

/-- Helix projection factor (app.py lines 108-110): cos²(α) when the helix
option is enabled, 1 otherwise. -/
noncomputable def cos2Of (helix_enable : Bool) (helix_angle_deg : ℝ) : ℝ :=
  if helix_enable then Real.cos (deg2rad helix_angle_deg) ^ 2 else 1

/-- Signed bending stress at one radius (app.py lines 104-111):
sigma_b = E·κ·y·cos²·k_bend with E = E_GPa·1e9, y = y_mm/1000, κ = 1/R.
Note that bend_amp_factor multiplies unconditionally in the source. -/
noncomputable def sigmaB (inp : CurveInputs) (R : ℝ) : ℝ :=
  (inp.E_GPa * 1e9) * (1 / R) * (inp.y_mm / 1000) *
    cos2Of inp.helix_enable inp.helix_angle_deg * inp.bend_amp_factor

/-- Value of the Case 1 (pure bending) curve at one radius
(app.py line 112). -/
noncomputable def case1At (inp : CurveInputs) (R : ℝ) : ℝ :=
  |sigmaB inp R| * inp.safety_factor

/-- Tension in newtons of one load entry (app.py line 114). -/
noncomputable def tensionOf (inp : CurveInputs) (L : ℚ) : ℝ :=
  if inp.loads_unit = LoadUnit.N then (L : ℝ) else lbf_to_N (L : ℝ)

/-- Axial stress of one load entry (app.py lines 115-117), defined when
n_cond ≠ 0; the area division is protected by max(A_c, 1e-12). -/
noncomputable def sigmaAx (inp : CurveInputs) (L : ℚ) : ℝ :=
  let T_eff0 := tensionOf inp L * inp.f_axial_share
  let T_eff := if inp.axial_reduction_enable then T_eff0 * inp.axial_reduction_factor else T_eff0
  T_eff / (inp.n_cond : ℝ) / max (inp.A_c_mm2 / 1e6) 1e-12 *
    cos2Of inp.helix_enable inp.helix_angle_deg

/-- Value of a Case 2 (bending plus axial) curve at one radius
(app.py line 118). -/
noncomputable def axialAt (inp : CurveInputs) (L : ℚ) (R : ℝ) : ℝ :=
  |sigmaB inp R + sigmaAx inp L| * inp.safety_factor

/-- Rounding to the nearest integer with ties to the even integer, the
rule used by the C library when formatting a decimal digit string. -/
def roundHalfEven (x : ℚ) : ℤ :=
  if x - ⌊x⌋ < 1 / 2 then ⌊x⌋
  else if 1 / 2 < x - ⌊x⌋ then ⌊x⌋ + 1
  else if ⌊x⌋ % 2 = 0 then ⌊x⌋ else ⌊x⌋ + 1

/-- Value rendered by the Python general float format of the dict key
(app.py line 118): the input rounded to 6 significant decimal digits,
ties to even.  The rendered string (fixed or scientific is chosen from
the magnitude, trailing zeros are stripped) is determined by this value
and determines it back, so two loads share a dict key exactly when their
gFormat values agree.  A formatted negative zero, which Python renders
with its sign, has no counterpart in the float-as-rational idealisation. -/
def gFormat (q : ℚ) : ℚ :=
  if q = 0 then 0
  else
    let e : ℤ := Int.log 10 |q|
    let s : ℚ := (10 : ℚ) ^ ((5 : ℤ) - e)
    (if q < 0 then (-1 : ℚ) else 1) * (roundHalfEven (|q| * s) : ℚ) / s

/-- Dictionary key of the Case 2 curve of a load (app.py line 118): the
general-format rendering of the load value together with the unit. -/
def labelOf (inp : CurveInputs) (L : ℚ) : Label :=
  Label.axialCase (gFormat L) inp.loads_unit

/-- Python dict assignment d[k] = v on an insertion-ordered association
list: update in place when the key exists, else append. -/
def dictInsert (k : Label) (v : List ℝ) : List (Label × List ℝ) → List (Label × List ℝ)
  | [] => [(k, v)]
  | (k2, v2) :: rest =>
    if k2 = k then (k, v) :: rest else (k2, v2) :: dictInsert k v rest

/-- The loop over axial_loads (app.py lines 113-118), inserting one Case 2
curve per load into the dict. -/
noncomputable def insertLoads (inp : CurveInputs) : List (Label × List ℝ) → List ℚ → List (Label × List ℝ)
  | m, [] => m
  | m, L :: ls =>
    insertLoads inp (dictInsert (labelOf inp L) (inp.R_m.map (axialAt inp L)) m) ls

/-- compute_curves (app.py lines 98-119).  When n_cond = 0 and the load
list is nonempty the Python loop raises ZeroDivisionError on its first
iteration (T_eff / n_cond); this is the none case.  Otherwise the result
is the dict seeded with the Case 1 curve and extended by the loop. -/
noncomputable def computeCurves (inp : CurveInputs) : Option (List (Label × List ℝ)) :=
  if inp.n_cond = 0 ∧ inp.axial_loads ≠ [] then none
  else some (insertLoads inp [(Label.pureBending, inp.R_m.map (case1At inp))] inp.axial_loads)

/-! ### The geometry helper and the allowable-limit scalars -/

/-- compute_y_default (app.py lines 122-130). -/
noncomputable def compute_y_default (r_ins_m r_core_m clr_m : ℝ) : ℝ :=
  let y_min_overlap := r_ins_m + 0.5 * clr_m
  let y_max_fit := max 0 (r_core_m - r_ins_m - clr_m)
  if y_min_overlap > y_max_fit then y_max_fit else y_min_overlap

/-- The allowable-stress scalar (app.py lines 289-290). -/
noncomputable def sigma_allow (E_GPa strain_limit_pct : ℝ) (allow_tie : Bool)
    (allowable_stress_MPa : ℝ) : ℝ :=
  let eps_lim := strain_limit_pct / 100
  if allow_tie then (E_GPa * 1e9) * eps_lim else allowable_stress_MPa * 1e6

/-- The reference elastic-limit line value (app.py line 307). -/
noncomputable def elastic_ref_line (E_GPa : ℝ) : ℝ := E_GPa * 1e9 * 0.001

/-- Modelled from the spec: the allowable-stress formula as the spec words
it, sigma_allow = E·eps_limit if tied, else the MPa value times 1e6, for
comparison with the source definition. -/
noncomputable def sigma_allow_spec (E eps_limit : ℝ) (tie : Bool) (mpa : ℝ) : ℝ :=
  if tie then E * eps_limit else mpa * 1e6

/-- Modelled from the spec: the reference elastic line as E × 0.001. -/
noncomputable def elastic_ref_line_spec (E : ℝ) : ℝ := E * 0.001

/-! ### Concrete inputs used by witnesses and counterexamples -/

/-- Base concrete input: one sample radius of 1 m, E of 1 GPa, offset of
1 m (1000 mm), area of 1 m² (1e6 mm²), no loads, helix off, all factors
1, two conductors. -/
noncomputable def baseInp : CurveInputs :=
  { R_m := [1], E_GPa := 1, y_mm := 1000, A_c_mm2 := 1e6, axial_loads := [],
    loads_unit := LoadUnit.N, f_axial_share := 1, helix_enable := false,
    helix_angle_deg := 30, bend_amp_factor := 1, axial_reduction_enable := false,
    axial_reduction_factor := 1, safety_factor := 1, n_cond := 2 }

/-- Doubling of every stress sample of every curve of a dict, keeping
labels; used to state homogeneity in the safety factor. -/
noncomputable def doubleCurves (m : List (Label × List ℝ)) : List (Label × List ℝ) :=
  m.map (fun e => (e.1, e.2.map (fun x => 2 * x)))

/-- Concrete input with a zero conductor count and one load. -/
noncomputable def c1Inp : CurveInputs :=
  { baseInp with axial_loads := [1], n_cond := 0 }

/-- Concrete input with negative metal area and negative conductor count. -/
noncomputable def c1WInp : CurveInputs :=
  { baseInp with A_c_mm2 := -3, n_cond := -1, axial_loads := [5] }

/-- Concrete input with the helix option off but an amplification factor
of 2. -/
noncomputable def c2InpOff : CurveInputs :=
  { baseInp with bend_amp_factor := 2 }

/-- Concrete input with the helix option on at zero lay angle and
amplification factor 1. -/
noncomputable def c2InpOn : CurveInputs :=
  { baseInp with helix_enable := true, helix_angle_deg := 0 }

/-- Concrete input with a duplicated load value. -/
noncomputable def c3Inp : CurveInputs :=
  { baseInp with axial_loads := [20, 20] }

/-- Concrete input with a zero neutral-axis offset. -/
noncomputable def c5Inp : CurveInputs :=
  { baseInp with y_mm := 0 }

/-- Concrete input with a zero axial load share and one load. -/
noncomputable def c6Inp : CurveInputs :=
  { baseInp with f_axial_share := 0, axial_loads := [2] }

/-- The text 1,abc,3 with a non-numeric token. -/
def c9BadText : List Char := ['1', ',', 'a', 'b', 'c', ',', '3']

/-- The text of the form one, 2.5, three numeric tokens with spacing. -/
def c9GoodText : List Char := ['1', ',', ' ', '2', '.', '5', ',', '3']

/-! ### Shared lemmas about the engine -/

/-- compute_curves raises exactly when n_cond = 0 and the load list is
nonempty. -/
lemma computeCurves_none (inp : CurveInputs)
    (h : inp.n_cond = 0 ∧ inp.axial_loads ≠ []) : computeCurves inp = none := by
  unfold computeCurves
  exact if_pos h

/-- In the non-raising case compute_curves returns the seeded dict extended
by the load loop. -/
lemma computeCurves_eq_some (inp : CurveInputs)
    (h : inp.n_cond ≠ 0 ∨ inp.axial_loads = []) :
    computeCurves inp
      = some (insertLoads inp [(Label.pureBending, inp.R_m.map (case1At inp))] inp.axial_loads) := by
  unfold computeCurves
  apply if_neg
  rintro ⟨h0, hne⟩
  rcases h with h | h
  · exact h h0
  · exact hne h

/-- Membership after a dict assignment: the new pair, or an untouched old
pair. -/
lemma mem_dictInsert {e : Label × List ℝ} {k : Label} {v : List ℝ}
    {m : List (Label × List ℝ)} (h : e ∈ dictInsert k v m) : e = (k, v) ∨ e ∈ m := by
  induction m with
  | nil =>
    simp only [dictInsert, List.mem_singleton] at h
    exact Or.inl h
  | cons p rest ih =>
    obtain ⟨k2, v2⟩ := p
    by_cases hk : k2 = k
    · rw [dictInsert, if_pos hk] at h
      rcases List.mem_cons.mp h with h1 | h1
      · exact Or.inl h1
      · exact Or.inr (List.mem_cons_of_mem _ h1)
    · rw [dictInsert, if_neg hk] at h
      rcases List.mem_cons.mp h with h1 | h1
      · exact Or.inr (h1 ▸ List.mem_cons_self _ _)
      · rcases ih h1 with h2 | h2
        · exact Or.inl h2
        · exact Or.inr (List.mem_cons_of_mem _ h2)

/-- Keys after a dict assignment: unchanged when the key is present, else
the key is appended. -/
lemma keys_dictInsert (k : Label) (v : List ℝ) (m : List (Label × List ℝ)) :
    (dictInsert k v m).map Prod.fst =
      if k ∈ m.map Prod.fst then m.map Prod.fst else m.map Prod.fst ++ [k] := by
  induction m with
  | nil => simp [dictInsert]
  | cons p rest ih =>
    obtain ⟨k2, v2⟩ := p
    by_cases hk : k2 = k
    · subst hk
      rw [dictInsert, if_pos rfl]
      simp
    · rw [dictInsert, if_neg hk]
      by_cases hm : k ∈ rest.map Prod.fst
      · simp [hm, ih, Ne.symm hk]
      · simp [hm, ih, Ne.symm hk]

/-- Key multiset as a set after a dict assignment. -/
lemma toFinset_keys_dictInsert (k : Label) (v : List ℝ) (m : List (Label × List ℝ)) :
    ((dictInsert k v m).map Prod.fst).toFinset = insert k (m.map Prod.fst).toFinset := by
  rw [keys_dictInsert]
  split_ifs with hm
  · rw [Finset.insert_eq_self.mpr (List.mem_toFinset.mpr hm)]
  · rw [List.toFinset_append, Finset.insert_eq]
    simp [Finset.union_comm]

/-- Dict assignment preserves key distinctness. -/
lemma nodup_keys_dictInsert (k : Label) (v : List ℝ) (m : List (Label × List ℝ))
    (h : (m.map Prod.fst).Nodup) : ((dictInsert k v m).map Prod.fst).Nodup := by
  rw [keys_dictInsert]
  split_ifs with hm
  · exact h
  · simp [List.nodup_append, h, hm]

/-- Membership after the load loop: a pair inserted for one of the loads,
or an untouched pair of the initial dict. -/
lemma mem_insertLoads (inp : CurveInputs) :
    ∀ (ls : List ℚ) (m : List (Label × List ℝ)) (e : Label × List ℝ),
      e ∈ insertLoads inp m ls →
        (∃ L ∈ ls, e = (labelOf inp L, inp.R_m.map (axialAt inp L))) ∨ e ∈ m := by
  intro ls
  induction ls with
  | nil =>
    intro m e he
    exact Or.inr he
  | cons L ls ih =>
    intro m e he
    rw [insertLoads] at he
    rcases ih _ _ he with ⟨L2, hL2, he2⟩ | he2
    · exact Or.inl ⟨L2, List.mem_cons_of_mem _ hL2, he2⟩
    · rcases mem_dictInsert he2 with h1 | h1
      · exact Or.inl ⟨L, List.mem_cons_self _ _, h1⟩
      · exact Or.inr h1

/-- Keys after the load loop, as a set: the initial keys joined with one
label per load. -/
lemma toFinset_keys_insertLoads (inp : CurveInputs) :
    ∀ (ls : List ℚ) (m : List (Label × List ℝ)),
      ((insertLoads inp m ls).map Prod.fst).toFinset
        = (m.map Prod.fst).toFinset ∪ (ls.map (labelOf inp)).toFinset := by
  intro ls
  induction ls with
  | nil =>
    intro m
    simp [insertLoads]
  | cons L ls ih =>
    intro m
    rw [insertLoads, ih, toFinset_keys_dictInsert]
    simp only [List.map_cons, List.toFinset_cons]
    rw [Finset.insert_union, Finset.union_insert]

/-- The load loop preserves key distinctness. -/
lemma nodup_keys_insertLoads (inp : CurveInputs) :
    ∀ (ls : List ℚ) (m : List (Label × List ℝ)),
      (m.map Prod.fst).Nodup → ((insertLoads inp m ls).map Prod.fst).Nodup := by
  intro ls
  induction ls with
  | nil =>
    intro m h
    exact h
  | cons L ls ih =>
    intro m h
    rw [insertLoads]
    exact ih _ (nodup_keys_dictInsert _ _ _ h)

/-- Two inputs producing the same per-load curves, labels, sweep, loads
and conductor count produce equal engine output. -/
lemma insertLoads_congr (i1 i2 : CurveInputs)
    (hcurve : ∀ L : ℚ, i1.R_m.map (axialAt i1 L) = i2.R_m.map (axialAt i2 L))
    (hlab : ∀ L : ℚ, labelOf i1 L = labelOf i2 L) :
    ∀ (ls : List ℚ) (m : List (Label × List ℝ)), insertLoads i1 m ls = insertLoads i2 m ls := by
  intro ls
  induction ls with
  | nil =>
    intro m
    rfl
  | cons L ls ih =>
    intro m
    rw [insertLoads, insertLoads, hcurve L, hlab L, ih]

/-- With a zero axial share the axial stress vanishes, reduction factor or
not. -/
lemma sigmaAx_of_share_zero (inp : CurveInputs) (hf : inp.f_axial_share = 0) (L : ℚ) :
    sigmaAx inp L = 0 := by
  simp only [sigmaAx, hf, mul_zero]
  split_ifs <;> simp

/-- With a zero axial share every Case 2 sample coincides with the Case 1
sample. -/
lemma axialAt_of_share_zero (inp : CurveInputs) (hf : inp.f_axial_share = 0) (L : ℚ) (R : ℝ) :
    axialAt inp L R = case1At inp R := by
  unfold axialAt case1At
  rw [sigmaAx_of_share_zero inp hf, add_zero]

/-- The bending stress does not read the safety factor. -/
lemma sigmaB_sf (inp : CurveInputs) (x : ℝ) :
    sigmaB { inp with safety_factor := x } = sigmaB inp := rfl

/-- The axial stress does not read the safety factor. -/
lemma sigmaAx_sf (inp : CurveInputs) (x : ℝ) :
    sigmaAx { inp with safety_factor := x } = sigmaAx inp := rfl

/-- Case 1 samples scale by two when the safety factor doubles. -/
lemma case1At_sf_double (inp : CurveInputs) (s : ℝ) (R : ℝ) :
    case1At { inp with safety_factor := 2 * s } R = 2 * case1At { inp with safety_factor := s } R := by
  unfold case1At
  rw [sigmaB_sf, sigmaB_sf]
  show |sigmaB inp R| * (2 * s) = 2 * (|sigmaB inp R| * s)
  ring

/-- Case 2 samples scale by two when the safety factor doubles. -/
lemma axialAt_sf_double (inp : CurveInputs) (s : ℝ) (L : ℚ) (R : ℝ) :
    axialAt { inp with safety_factor := 2 * s } L R
      = 2 * axialAt { inp with safety_factor := s } L R := by
  unfold axialAt
  rw [sigmaB_sf, sigmaB_sf, sigmaAx_sf, sigmaAx_sf]
  show |sigmaB inp R + sigmaAx inp L| * (2 * s) = 2 * (|sigmaB inp R + sigmaAx inp L| * s)
  ring

/-- Dict assignment commutes with a value transformation applied to every
entry. -/
lemma dictInsert_map (f : List ℝ → List ℝ) (k : Label) (v : List ℝ)
    (m : List (Label × List ℝ)) :
    dictInsert k (f v) (m.map (fun e => (e.1, f e.2)))
      = (dictInsert k v m).map (fun e => (e.1, f e.2)) := by
  induction m with
  | nil => rfl
  | cons p rest ih =>
    obtain ⟨k2, v2⟩ := p
    by_cases hk : k2 = k
    · simp [dictInsert, hk]
    · simp [dictInsert, hk, ih]

/-- The load loop at a doubled safety factor produces the doubled dict. -/
lemma insertLoads_sf_double (inp : CurveInputs) (s : ℝ) :
    ∀ (ls : List ℚ) (m : List (Label × List ℝ)),
      insertLoads { inp with safety_factor := 2 * s } (doubleCurves m) ls
        = doubleCurves (insertLoads { inp with safety_factor := s } m ls) := by
  intro ls
  induction ls with
  | nil =>
    intro m
    rfl
  | cons L ls ih =>
    intro m
    rw [insertLoads, insertLoads]
    have hv : ({ inp with safety_factor := 2 * s } : CurveInputs).R_m.map
          (axialAt { inp with safety_factor := 2 * s } L)
        = (({ inp with safety_factor := s } : CurveInputs).R_m.map
            (axialAt { inp with safety_factor := s } L)).map (fun x => 2 * x) := by
      rw [List.map_map]
      exact List.map_congr_left (fun R _ => axialAt_sf_double inp s L R)
    rw [hv,
      show labelOf { inp with safety_factor := 2 * s } = labelOf { inp with safety_factor := s }
        from rfl]
    rw [show (doubleCurves m) = m.map (fun e => (e.1, e.2.map (fun x => 2 * x))) from rfl,
      dictInsert_map]
    exact ih _

/-! ### Claim C4 -/

/-- Claim C4 counterexample: at r_ins = 1, r_core = 3, clr = 0 (satisfying
r_ins ≥ 0 and clr ≥ 0) the function returns the overlap minimum 1, not the
maximum 2 of the two limits as the claim states. -/
theorem c4_larger_counterexample :
    compute_y_default 1 3 0 ≠ max ((1 : ℝ) + 0 / 2) (max 0 (3 - 1 - 0)) := by
  simp only [compute_y_default]
  rw [if_neg (by norm_num [max_def])]
  rw [show max ((1 : ℝ) + 0 / 2) (max 0 (3 - 1 - 0)) = 2 by norm_num [max_def]]
  norm_num

/-- Claim C4 amended: compute_y_default returns the overlap-avoidance
minimum r_ins + clr/2 when it does not exceed the clamped fit-inside-core
bound max(0, r_core − r_ins − clr), and otherwise falls back to that fit
bound: the smaller of the two limits, not the larger. -/
theorem c4_default_offset_is_min (r_ins_m r_core_m clr_m : ℝ) :
    compute_y_default r_ins_m r_core_m clr_m
      = min (r_ins_m + 0.5 * clr_m) (max 0 (r_core_m - r_ins_m - clr_m)) := by
  simp only [compute_y_default]
  split_ifs with h
  · exact (min_eq_right (le_of_lt h)).symm
  · exact (min_eq_left (not_lt.mp h)).symm

/-! ### Claim C8 -/

/-- Claim C8: the allowable-stress scalar equals E × ε_limit when tied to
the strain limit and the supplied MPa value times 1e6 otherwise, with
E = E_GPa·1e9 and ε_limit = strain_limit_pct/100, and the reference
elastic-limit line equals E × 0.001 independent of the tie choice. -/
theorem c8_allowable_limits (E_GPa strain_limit_pct allowable_stress_MPa : ℝ)
    (allow_tie : Bool) :
    sigma_allow E_GPa strain_limit_pct allow_tie allowable_stress_MPa
        = sigma_allow_spec (E_GPa * 1e9) (strain_limit_pct / 100) allow_tie allowable_stress_MPa
      ∧ elastic_ref_line E_GPa = elastic_ref_line_spec (E_GPa * 1e9) := by
  constructor
  · cases allow_tie <;> rfl
  · rfl

/-! ### Claim C1 -/

/-- Claim C1 counterexample: with conductor count n = 0 and one axial load
the engine raises (ZeroDivisionError in T_eff / n_cond); n is not floored
to 1 as the claim states. -/
theorem c1_zero_n_raises : computeCurves c1Inp = none := by
  apply computeCurves_none
  exact ⟨by decide, by decide⟩

/-- Claim C1 amended: A_c is clamped through max(A_c, 1e-12), so no
exception arises from zero or negative metal area, and none from a
negative conductor count; but n is not floored: the engine returns a
result exactly when n ≠ 0 or the load list is empty, and raises a
ZeroDivisionError when n = 0 and a load is present. -/
theorem c1_graceful_unless_zero_n (inp : CurveInputs)
    (h : inp.n_cond ≠ 0 ∨ inp.axial_loads = []) :
    ∃ m, computeCurves inp = some m :=
  ⟨_, computeCurves_eq_some inp h⟩

/-- Claim C1 witness: at negative area −3 mm² and conductor count −1 with
one load the engine still returns a result. -/
theorem c1_graceful_witness : (computeCurves c1WInp).isSome = true := by
  obtain ⟨m, hm⟩ := c1_graceful_unless_zero_n c1WInp (Or.inl (by decide))
  rw [hm]
  rfl

/-! ### Claim C3 -/

/-- Claim C3 counterexample: with the duplicated load list of 20 and 20
the mapping has 2 entries, not 1 + 2 = 3; the duplicate load produces the
same label and overwrites the earlier entry. -/
theorem c3_duplicate_collision :
    Option.map List.length (computeCurves c3Inp) ≠ some (1 + c3Inp.axial_loads.length) := by
  rw [computeCurves_eq_some c3Inp (Or.inl (by decide))]
  intro h
  simp only [Option.map_some'] at h
  have h2 := Option.some.inj h
  rw [show c3Inp.axial_loads = [20, 20] from rfl] at h2
  simp [insertLoads, labelOf, dictInsert] at h2

/-- Claim C3 amended: when the engine returns, the mapping has exactly
1 + (number of distinct dict labels of the loads) entries — one
pure-bending entry plus one entry per distinct label, where a load's
label is its 6-significant-digit general-format rendering together with
the unit, so duplicate loads, and distinct loads rounding to the same
rendering, collide with the later curve overwriting the earlier — and
for the empty load list it is exactly the single pure-bending entry. -/
theorem c3_distinct_entry_count (inp : CurveInputs)
    (h : inp.n_cond ≠ 0 ∨ inp.axial_loads = []) :
    ∃ m, computeCurves inp = some m ∧
      m.length = 1 + (inp.axial_loads.map (labelOf inp)).toFinset.card ∧
      (inp.axial_loads = [] → m = [(Label.pureBending, inp.R_m.map (case1At inp))]) := by
  refine ⟨_, computeCurves_eq_some inp h, ?_, ?_⟩
  · have hnd : (([(Label.pureBending, inp.R_m.map (case1At inp))] :
        List (Label × List ℝ)).map Prod.fst).Nodup := by simp
    have hnd2 := nodup_keys_insertLoads inp inp.axial_loads _ hnd
    rw [show (insertLoads inp [(Label.pureBending, inp.R_m.map (case1At inp))]
          inp.axial_loads).length
        = ((insertLoads inp [(Label.pureBending, inp.R_m.map (case1At inp))]
          inp.axial_loads).map Prod.fst).length from (List.length_map _ _).symm]
    rw [← List.toFinset_card_of_nodup hnd2, toFinset_keys_insertLoads]
    rw [show (([(Label.pureBending, inp.R_m.map (case1At inp))] :
        List (Label × List ℝ)).map Prod.fst).toFinset = {Label.pureBending} by simp]
    rw [← Finset.insert_eq]
    rw [Finset.card_insert_of_not_mem (by simp [labelOf])]
    rw [add_comm]
  · intro he
    rw [he]
    rfl

/-- Claim C3 witness: at the duplicated load list of 20 and 20 both loads
carry the same label, so the mapping has 1 + 1 = 2 entries. -/
theorem c3_distinct_entry_count_witness :
    Option.map List.length (computeCurves c3Inp) = some 2 := by
  obtain ⟨m, h1, h2, _⟩ := c3_distinct_entry_count c3Inp (Or.inl (by decide))
  have hcard : (c3Inp.axial_loads.map (labelOf c3Inp)).toFinset.card = 1 := by
    rw [show c3Inp.axial_loads = [20, 20] from rfl]
    simp
  rw [h1, Option.map_some', h2, hcard]

/-! ### Claim C5 -/

/-- Claim C5 counterexample: at zero offset y the pure-bending values at
R = 2 and R = 1 are both zero (with E = 1 GPa > 0, radii 0 < 1 < 2), so
the value at the larger radius is not strictly smaller. -/
theorem c5_zero_offset_counterexample : ¬ (case1At c5Inp 2 < case1At c5Inp 1) := by
  have h0 : ∀ R : ℝ, case1At c5Inp R = 0 := by
    intro R
    unfold case1At sigmaB c5Inp baseInp
    norm_num
  rw [h0 1, h0 2]
  exact lt_irrefl 0

/-- Claim C5 amended: for radii 0 < R1 < R2 with E > 0, and additionally a
nonzero offset y, nonzero amplification factor, positive safety factor
and nonzero helix projection (all guaranteed by the UI except y, whose
widget admits 0), the pure-bending value at R2 is strictly smaller than
at R1. -/
theorem c5_pure_bending_decreasing (inp : CurveInputs) (R1 R2 : ℝ)
    (hR1 : 0 < R1) (hR12 : R1 < R2) (hE : 0 < inp.E_GPa) (hy : inp.y_mm ≠ 0)
    (hk : inp.bend_amp_factor ≠ 0) (hsf : 0 < inp.safety_factor)
    (hc : cos2Of inp.helix_enable inp.helix_angle_deg ≠ 0) :
    case1At inp R2 < case1At inp R1 := by
  have hR2 : 0 < R2 := hR1.trans hR12
  set C := |inp.E_GPa * 1e9 * (inp.y_mm / 1000) *
      cos2Of inp.helix_enable inp.helix_angle_deg * inp.bend_amp_factor| *
      inp.safety_factor with hC
  have key : ∀ R : ℝ, 0 < R → case1At inp R = 1 / R * C := by
    intro R hR
    unfold case1At sigmaB
    rw [hC]
    rw [show inp.E_GPa * 1e9 * (1 / R) * (inp.y_mm / 1000) *
          cos2Of inp.helix_enable inp.helix_angle_deg * inp.bend_amp_factor
        = 1 / R * (inp.E_GPa * 1e9 * (inp.y_mm / 1000) *
          cos2Of inp.helix_enable inp.helix_angle_deg * inp.bend_amp_factor) by ring]
    rw [abs_mul, abs_of_pos (by positivity : (0 : ℝ) < 1 / R)]
    ring
  have hCpos : 0 < C := by
    rw [hC]
    apply mul_pos _ hsf
    rw [abs_pos]
    have h1 : inp.E_GPa * 1e9 ≠ 0 := by positivity
    have h2 : inp.y_mm / 1000 ≠ 0 := div_ne_zero hy (by norm_num)
    exact mul_ne_zero (mul_ne_zero (mul_ne_zero h1 h2) hc) hk
  rw [key R1 hR1, key R2 hR2]
  exact mul_lt_mul_of_pos_right (one_div_lt_one_div_of_lt hR1 hR12) hCpos

/-- Claim C5 witness: at the base input (E = 1 GPa, y = 1000 mm, helix
off, factors 1) the pure-bending value at R = 2 is strictly below the one
at R = 1. -/
theorem c5_pure_bending_decreasing_witness :
    (0 : ℝ) < 1 ∧ (1 : ℝ) < 2 ∧ 0 < baseInp.E_GPa ∧ baseInp.y_mm ≠ 0 ∧
      baseInp.bend_amp_factor ≠ 0 ∧ 0 < baseInp.safety_factor ∧
      cos2Of baseInp.helix_enable baseInp.helix_angle_deg ≠ 0 ∧
      case1At baseInp 2 < case1At baseInp 1 := by
  refine ⟨by norm_num, by norm_num, by norm_num [baseInp], by norm_num [baseInp],
    by norm_num [baseInp], by norm_num [baseInp], by norm_num [baseInp, cos2Of], ?_⟩
  exact c5_pure_bending_decreasing baseInp 1 2 (by norm_num) (by norm_num)
    (by norm_num [baseInp]) (by norm_num [baseInp]) (by norm_num [baseInp])
    (by norm_num [baseInp]) (by norm_num [baseInp, cos2Of])

/-! ### Claim C6 -/

/-- Claim C6: with a zero axial load share every curve of the returned
mapping — in particular every axial-augmented one — equals the Case 1
pure-bending curve, sample for sample over the whole sweep. -/
theorem c6_share_zero_axial_equals_pure (inp : CurveInputs) (hf : inp.f_axial_share = 0)
    (m : List (Label × List ℝ)) (hm : computeCurves inp = some m) :
    ∀ e ∈ m, e.2 = inp.R_m.map (case1At inp) := by
  intro e he
  rcases Classical.em (inp.n_cond = 0 ∧ inp.axial_loads ≠ []) with hc | hc
  · rw [computeCurves_none inp hc] at hm
    exact absurd hm (by simp)
  · have h2 : inp.n_cond ≠ 0 ∨ inp.axial_loads = [] := by tauto
    rw [computeCurves_eq_some inp h2] at hm
    have hm2 := Option.some.inj hm
    rw [← hm2] at he
    rcases mem_insertLoads inp inp.axial_loads _ e he with ⟨L, _, heq⟩ | hin
    · rw [heq]
      exact List.map_congr_left (fun R _ => axialAt_of_share_zero inp hf L R)
    · rw [List.mem_singleton.mp hin]

/-- Claim C6 witness: at zero share with the single load 2 N the Case 2
curve coincides with the Case 1 curve. -/
theorem c6_share_zero_witness :
    c6Inp.R_m.map (axialAt c6Inp 2) = c6Inp.R_m.map (case1At c6Inp) := by
  have hm : computeCurves c6Inp
      = some [(Label.pureBending, c6Inp.R_m.map (case1At c6Inp)),
          (labelOf c6Inp 2, c6Inp.R_m.map (axialAt c6Inp 2))] := by
    rw [computeCurves_eq_some c6Inp (Or.inl (by decide))]
    rfl
  exact c6_share_zero_axial_equals_pure c6Inp rfl _ hm
    (labelOf c6Inp 2, c6Inp.R_m.map (axialAt c6Inp 2)) (by simp)

/-! ### Claim C7 -/

/-- Claim C7: running the engine with safety factor 2·s returns, for every
curve label and every radius sample, exactly twice the stress value
obtained with safety factor s (and the raising case raises for both). -/
theorem c7_safety_factor_doubling (inp : CurveInputs) (s : ℝ) :
    computeCurves { inp with safety_factor := 2 * s }
      = Option.map doubleCurves (computeCurves { inp with safety_factor := s }) := by
  rcases Classical.em (inp.n_cond = 0 ∧ inp.axial_loads ≠ []) with hc | hc
  · rw [computeCurves_none { inp with safety_factor := 2 * s } hc,
      computeCurves_none { inp with safety_factor := s } hc]
    rfl
  · have h2 : inp.n_cond ≠ 0 ∨ inp.axial_loads = [] := by tauto
    rw [computeCurves_eq_some { inp with safety_factor := 2 * s } h2,
      computeCurves_eq_some { inp with safety_factor := s } h2]
    rw [Option.map_some']
    congr 1
    have hv : ({ inp with safety_factor := 2 * s } : CurveInputs).R_m.map
          (case1At { inp with safety_factor := 2 * s })
        = (({ inp with safety_factor := s } : CurveInputs).R_m.map
            (case1At { inp with safety_factor := s })).map (fun x => 2 * x) := by
      rw [List.map_map]
      exact List.map_congr_left (fun R _ => case1At_sf_double inp s R)
    rw [hv]
    exact insertLoads_sf_double inp s inp.axial_loads
      [(Label.pureBending, ({ inp with safety_factor := s } : CurveInputs).R_m.map
        (case1At { inp with safety_factor := s }))]

/-! ### Claim C2 -/

/-- Claim C2: the source multiplies sigma_b by bend_amp_factor whether or
not the helix option is enabled, so with the helix off and k_bend = 2 the
output (2e9 Pa at R = 1) differs from the output with the helix on at
α = 0 and k_bend = 1 (1e9 Pa); the UI checkbox labelled as enabling both
the cos² term and k_bend does not in fact gate k_bend. -/
theorem c2_kbend_applies_when_disabled :
    computeCurves c2InpOff ≠ computeCurves c2InpOn := by
  have hboff : sigmaB c2InpOff 1 = 2e9 := by
    unfold sigmaB cos2Of c2InpOff baseInp
    norm_num
  have hbon : sigmaB c2InpOn 1 = 1e9 := by
    unfold sigmaB cos2Of c2InpOn baseInp deg2rad
    norm_num [Real.cos_zero]
  have h1 : case1At c2InpOff 1 = 2e9 := by
    unfold case1At
    rw [hboff, abs_of_nonneg (by norm_num : (0 : ℝ) ≤ 2e9)]
    norm_num [c2InpOff, baseInp]
  have h2 : case1At c2InpOn 1 = 1e9 := by
    unfold case1At
    rw [hbon, abs_of_nonneg (by norm_num : (0 : ℝ) ≤ 1e9)]
    norm_num [c2InpOn, baseInp]
  have hoff : computeCurves c2InpOff = some [(Label.pureBending, [case1At c2InpOff 1])] := by
    rw [computeCurves_eq_some c2InpOff (Or.inr rfl)]
    rfl
  have hon : computeCurves c2InpOn = some [(Label.pureBending, [case1At c2InpOn 1])] := by
    rw [computeCurves_eq_some c2InpOn (Or.inr rfl)]
    rfl
  rw [hoff, hon, h1, h2]
  intro h
  have hv : (2e9 : ℝ) = 1e9 := by
    have := Option.some.inj h
    simpa using this
  norm_num at hv

/-! ### Claim C10 -/

/-- Claim C10: with the helix option off, two calls whose inputs differ
only in the lay angle return identical mappings; the angle is
non-interfering when the option is disabled. -/
theorem c10_angle_noninterference (inp : CurveInputs) (a1 a2 : ℝ)
    (h : inp.helix_enable = false) :
    computeCurves { inp with helix_angle_deg := a1 }
      = computeCurves { inp with helix_angle_deg := a2 } := by
  have hc : ∀ a : ℝ, cos2Of inp.helix_enable a = 1 := by
    intro a
    rw [h]
    rfl
  rcases Classical.em (inp.n_cond = 0 ∧ inp.axial_loads ≠ []) with hcase | hcase
  · rw [computeCurves_none { inp with helix_angle_deg := a1 } hcase,
      computeCurves_none { inp with helix_angle_deg := a2 } hcase]
  · have h2 : inp.n_cond ≠ 0 ∨ inp.axial_loads = [] := by tauto
    rw [computeCurves_eq_some { inp with helix_angle_deg := a1 } h2,
      computeCurves_eq_some { inp with helix_angle_deg := a2 } h2]
    have hB : ∀ R : ℝ, sigmaB { inp with helix_angle_deg := a1 } R
        = sigmaB { inp with helix_angle_deg := a2 } R := by
      intro R
      show inp.E_GPa * 1e9 * (1 / R) * (inp.y_mm / 1000) * cos2Of inp.helix_enable a1 *
          inp.bend_amp_factor
        = inp.E_GPa * 1e9 * (1 / R) * (inp.y_mm / 1000) * cos2Of inp.helix_enable a2 *
          inp.bend_amp_factor
      rw [hc a1, hc a2]
    have hAx : ∀ L : ℚ, sigmaAx { inp with helix_angle_deg := a1 } L
        = sigmaAx { inp with helix_angle_deg := a2 } L := by
      intro L
      show (if inp.axial_reduction_enable then
            tensionOf inp L * inp.f_axial_share * inp.axial_reduction_factor
          else tensionOf inp L * inp.f_axial_share) / (inp.n_cond : ℝ) /
            max (inp.A_c_mm2 / 1e6) 1e-12 * cos2Of inp.helix_enable a1
        = (if inp.axial_reduction_enable then
            tensionOf inp L * inp.f_axial_share * inp.axial_reduction_factor
          else tensionOf inp L * inp.f_axial_share) / (inp.n_cond : ℝ) /
            max (inp.A_c_mm2 / 1e6) 1e-12 * cos2Of inp.helix_enable a2
      rw [hc a1, hc a2]
    have hcase1 : ∀ R : ℝ, case1At { inp with helix_angle_deg := a1 } R
        = case1At { inp with helix_angle_deg := a2 } R := by
      intro R
      unfold case1At
      rw [hB R]
    have hcurve : ∀ L : ℚ, ({ inp with helix_angle_deg := a1 } : CurveInputs).R_m.map
          (axialAt { inp with helix_angle_deg := a1 } L)
        = ({ inp with helix_angle_deg := a2 } : CurveInputs).R_m.map
          (axialAt { inp with helix_angle_deg := a2 } L) := by
      intro L
      refine List.map_congr_left (fun R _ => ?_)
      unfold axialAt
      rw [hB R, hAx L]
    have hinit : ({ inp with helix_angle_deg := a1 } : CurveInputs).R_m.map
          (case1At { inp with helix_angle_deg := a1 })
        = ({ inp with helix_angle_deg := a2 } : CurveInputs).R_m.map
          (case1At { inp with helix_angle_deg := a2 }) := by
      exact List.map_congr_left (fun R _ => hcase1 R)
    rw [hinit, insertLoads_congr { inp with helix_angle_deg := a1 }
      { inp with helix_angle_deg := a2 } hcurve (fun L => rfl)]

/-- Claim C10 witness: at the base input (helix off) the lay angles 7 and
33 give identical outputs. -/
theorem c10_angle_noninterference_witness :
    computeCurves { baseInp with helix_angle_deg := 7 }
      = computeCurves { baseInp with helix_angle_deg := 33 } :=
  c10_angle_noninterference baseInp 7 33 rfl

/-! ### Claim C9 -/

/-- The comprehension aborts when any token fails to parse. -/
lemma parseAll_eq_none {l : List (List Char)} {t : List Char} (ht : t ∈ l)
    (hn : pyFloat t = none) : parseAll l = none := by
  induction l with
  | nil => cases ht
  | cons a l ih =>
    rcases List.mem_cons.mp ht with rfl | h2
    · simp only [parseAll, hn]
    · rcases hpa : pyFloat a with _ | v <;>
        simp only [parseAll, hpa, ih h2]

/-- A successful comprehension parses the tokens pointwise, in order. -/
lemma parseAll_forall2 : ∀ {l : List (List Char)} {vs : List ℚ}, parseAll l = some vs →
    List.Forall₂ (fun t v => pyFloat t = some v) l vs := by
  intro l
  induction l with
  | nil =>
    intro vs h
    simp only [parseAll] at h
    rw [← Option.some.inj h]
    exact List.Forall₂.nil
  | cons a l ih =>
    intro vs h
    rw [parseAll] at h
    rcases hpa : pyFloat a with _ | v
    · rw [hpa] at h
      cases h
    · rw [hpa] at h
      rcases hpl : parseAll l with _ | ws
      · rw [hpl] at h
        cases h
      · rw [hpl] at h
        rw [← Option.some.inj h]
        exact List.Forall₂.cons hpa (ih hpl)

/-- When every token parses the comprehension succeeds. -/
lemma parseAll_isSome {l : List (List Char)} (h : ∀ t ∈ l, (pyFloat t).isSome = true) :
    ∃ vs, parseAll l = some vs := by
  induction l with
  | nil => exact ⟨[], rfl⟩
  | cons a l ih =>
    obtain ⟨vs, hvs⟩ := ih (fun t ht => h t (List.mem_cons_of_mem _ ht))
    have ha := h a (List.mem_cons_self _ _)
    rcases hpa : pyFloat a with _ | v
    · rw [hpa] at ha
      cases ha
    · exact ⟨v :: vs, by rw [parseAll, hpa, hvs]⟩

/-- Claim C9: a token that fails to parse makes the load-list text fall
back to exactly the default sequence 20, 40, 60, 80, 100, 200 instead of
raising, and when every nonempty token parses the numeric result matches
the tokens pointwise in their textual order (empty tokens skipped by
tokensOf). -/
theorem c9_parse_fallback_and_order (s : List Char) :
    ((∃ t ∈ tokensOf s, pyFloat t = none) → parseLoadsText s default_loads = default_loads) ∧
    ((∀ t ∈ tokensOf s, (pyFloat t).isSome = true) →
      List.Forall₂ (fun t v => pyFloat t = some v) (tokensOf s)
        (parseLoadsText s default_loads)) := by
  constructor
  · rintro ⟨t, ht, hn⟩
    unfold parseLoadsText
    rw [parseAll_eq_none ht hn]
  · intro h
    obtain ⟨vs, hvs⟩ := parseAll_isSome h
    unfold parseLoadsText
    rw [hvs]
    exact parseAll_forall2 hvs

/-- Claim C9 witness: the text 1,abc,3 falls back to the default list and
the text of tokens 1, 2.5, 3 parses in order to those three values. -/
theorem c9_parse_witness :
    parseLoadsText c9BadText default_loads = default_loads ∧
    parseLoadsText c9GoodText default_loads = [1, 5 / 2, 3] := by
  constructor
  · exact (c9_parse_fallback_and_order c9BadText).1 ⟨['a', 'b', 'c'], by decide, by decide⟩
  · have hordered := (c9_parse_fallback_and_order c9GoodText).2 (by decide)
    have h3 : parseLoadsText c9GoodText default_loads
        = [1 * 1, 1 * ((2 : ℚ) + 5 / 10 ^ (1 : ℕ)), 1 * 3] := rfl
    rw [h3]
    norm_num
